import Mathlib

/-!
Shallow embedding of `src/bisection_method.py` (repository
peshnyar11/Bisection-Method).

The Python solver `bisection_method(a, b, tolerance, max_iterations)`
evaluates a scalar function `f`, checks `f(a) * f(b) >= 0` (rejecting the
bracket with a printed message and the sentinel return `(None, None)`),
and otherwise runs `for i in range(max_iterations)`: it computes the
midpoint `c = (a + b) / 2`, evaluates `fa = f(a)`, `fb = f(b)`,
`fc = f(c)`, records `error = abs(b - a)`, appends one dict per
iteration, breaks when `error < tolerance`, and otherwise narrows the
bracket (`b = c` when `fa * fc < 0`, else `a = c`).  It finally returns
`(DataFrame(results), c)`; when the loop body never ran, `c` is unbound
and the return raises `UnboundLocalError`.

The embedding replaces Python floats by `ℚ` (exact arithmetic; the
control flow is identical since only `+`, `/ 2`, `*`, `abs` and order
comparisons occur) and takes the target function `f` as an explicit
parameter (the Python code reads the module-level `f`).  The loop is
structural recursion on the remaining iteration budget; `i` carries the
Python loop counter.  Printing is a no-op for the returned data and is
dropped.
-/

/-- One appended iteration dict: keys `iteration`, `guess_a`, `guess_b`,
`midpoint_c`, `f(a)`, `f(b)`, `f(c)`, `error` of the Python record. -/
structure Record where
  iteration : ℕ
  guess_a : ℚ
  guess_b : ℚ
  midpoint_c : ℚ
  fa : ℚ
  fb : ℚ
  fc : ℚ
  error : ℚ
deriving Repr, DecidableEq

/-- Outcome of `bisection_method`: the `(None, None)` sentinel printed as a
bracket error, the `UnboundLocalError` raised when `return df, c` runs with
`c` never assigned (loop body never executed), or a normal return of the
record list (insertion order) together with the root `c`. -/
inductive SolveResult where
  | bracketError : SolveResult
  | unboundLocal : SolveResult
  | ok (records : List Record) (root : ℚ) : SolveResult
deriving Repr, DecidableEq

/-- The `for i in range(...)` loop of `bisection_method`: `n` is the
remaining iteration budget, `i` the Python loop counter so far.  Returns
the records produced from this point on, and `some c` for the last
midpoint computed (`none` when no iteration ran, i.e. `c` stays unbound). -/
def bisect_loop (f : ℚ → ℚ) (tolerance : ℚ) :
    ℕ → ℕ → ℚ → ℚ → List Record × Option ℚ
  | 0, _, _, _ => ([], none)
  | Nat.succ n, i, a, b =>
    let c := (a + b) / 2
    let fa := f a
    let fb := f b
    let fc := f c
    let error := |b - a|
    let entry : Record := ⟨i + 1, a, b, c, fa, fb, fc, error⟩
    if error < tolerance then
      ([entry], some c)
    else if fa * fc < 0 then
      let r := bisect_loop f tolerance n (i + 1) a c
      (entry :: r.1, some (r.2.getD c))
    else
      let r := bisect_loop f tolerance n (i + 1) c b
      (entry :: r.1, some (r.2.getD c))

/-- The Python `bisection_method(a, b, tolerance, max_iterations)` with the
target function `f` made explicit. -/
def bisection_method (f : ℚ → ℚ) (a b : ℚ) (tolerance : ℚ)
    (max_iterations : ℕ) : SolveResult :=
  if 0 ≤ f a * f b then
    SolveResult.bracketError
  else
    match bisect_loop f tolerance max_iterations 0 a b with
    | (recs, some c) => SolveResult.ok recs c
    | (_, none) => SolveResult.unboundLocal

/-- The hard-coded demo function used only to instantiate theorems at
concrete inputs; any `ℚ → ℚ` function with a sign change works. -/
def fdemo (x : ℚ) : ℚ := x - 1/3

/-- Concrete run used as a witness input: `bisection_method fdemo 0 1 (3/4) 100`
converges after two iterations with root `1/4`. -/
def demoRecs2 : List Record :=
  [⟨1, 0, 1, 1/2, -1/3, 2/3, 1/6, 1⟩,
   ⟨2, 0, 1/2, 1/4, -1/3, 1/6, -1/12, 1/2⟩]

/-- Concrete run used as a witness input: `bisection_method fdemo 0 1 0 5`
exhausts the budget of 5 iterations (tolerance 0 is unreachable since
`error < 0` never holds) and returns the 5th midpoint `11/32`. -/
def demoRecs5 : List Record :=
  [⟨1, 0, 1, 1/2, -1/3, 2/3, 1/6, 1⟩,
   ⟨2, 0, 1/2, 1/4, -1/3, 1/6, -1/12, 1/2⟩,
   ⟨3, 1/4, 1/2, 3/8, -1/12, 1/6, 1/24, 1/4⟩,
   ⟨4, 1/4, 3/8, 5/16, -1/12, 1/24, -1/48, 1/8⟩,
   ⟨5, 5/16, 3/8, 11/32, -1/48, 1/24, 1/96, 1/16⟩]

lemma bisect_loop_zero (f : ℚ → ℚ) (tol : ℚ) (i : ℕ) (a b : ℚ) :
    bisect_loop f tol 0 i a b = ([], none) := rfl

lemma bisect_loop_succ (f : ℚ → ℚ) (tol : ℚ) (n i : ℕ) (a b : ℚ) :
    bisect_loop f tol (n + 1) i a b =
      if |b - a| < tol then
        ([⟨i + 1, a, b, (a + b) / 2, f a, f b, f ((a + b) / 2), |b - a|⟩],
         some ((a + b) / 2))
      else if f a * f ((a + b) / 2) < 0 then
        (⟨i + 1, a, b, (a + b) / 2, f a, f b, f ((a + b) / 2), |b - a|⟩ ::
           (bisect_loop f tol n (i + 1) a ((a + b) / 2)).1,
         some ((bisect_loop f tol n (i + 1) a ((a + b) / 2)).2.getD ((a + b) / 2)))
      else
        (⟨i + 1, a, b, (a + b) / 2, f a, f b, f ((a + b) / 2), |b - a|⟩ ::
           (bisect_loop f tol n (i + 1) ((a + b) / 2) b).1,
         some ((bisect_loop f tol n (i + 1) ((a + b) / 2) b).2.getD ((a + b) / 2))) := rfl

lemma loop_coherent (f : ℚ → ℚ) (tol : ℚ) :
    ∀ (n i : ℕ) (a b : ℚ), ∀ r ∈ (bisect_loop f tol n i a b).1,
      r.midpoint_c = (r.guess_a + r.guess_b) / 2 ∧
      r.fa = f r.guess_a ∧ r.fb = f r.guess_b ∧ r.fc = f r.midpoint_c ∧
      r.error = |r.guess_b - r.guess_a| := by
  intro n
  induction n with
  | zero => intro i a b r hr; simp [bisect_loop_zero] at hr
  | succ n ih =>
    intro i a b r hr
    rw [bisect_loop_succ] at hr
    split_ifs at hr with h1 h2
    · simp only [List.mem_singleton] at hr
      subst hr; exact ⟨rfl, rfl, rfl, rfl, rfl⟩
    · simp only [List.mem_cons] at hr
      rcases hr with hr | hr
      · subst hr; exact ⟨rfl, rfl, rfl, rfl, rfl⟩
      · exact ih (i + 1) a ((a + b) / 2) r hr
    · simp only [List.mem_cons] at hr
      rcases hr with hr | hr
      · subst hr; exact ⟨rfl, rfl, rfl, rfl, rfl⟩
      · exact ih (i + 1) ((a + b) / 2) b r hr

lemma loop_idx (f : ℚ → ℚ) (tol : ℚ) :
    ∀ (n i : ℕ) (a b : ℚ) (j : ℕ) (r : Record),
      (bisect_loop f tol n i a b).1.get? j = some r → r.iteration = i + j + 1 := by
  intro n
  induction n with
  | zero => intro i a b j r hr; simp [bisect_loop_zero] at hr
  | succ n ih =>
    intro i a b j r hr
    rw [bisect_loop_succ] at hr
    split_ifs at hr with h1 h2
    · cases j with
      | zero =>
        simp only [List.get?_cons_zero, Option.some.injEq] at hr
        rw [← hr]
      | succ j => simp at hr
    · cases j with
      | zero =>
        simp only [List.get?_cons_zero, Option.some.injEq] at hr
        rw [← hr]
      | succ j =>
        simp only [List.get?_cons_succ] at hr
        have := ih (i + 1) a ((a + b) / 2) j r hr
        omega
    · cases j with
      | zero =>
        simp only [List.get?_cons_zero, Option.some.injEq] at hr
        rw [← hr]
      | succ j =>
        simp only [List.get?_cons_succ] at hr
        have := ih (i + 1) ((a + b) / 2) b j r hr
        omega

lemma loop_head0 (f : ℚ → ℚ) (tol : ℚ) (n i : ℕ) (a b : ℚ) (hn : 0 < n) :
    (bisect_loop f tol n i a b).1.get? 0 =
      some ⟨i + 1, a, b, (a + b) / 2, f a, f b, f ((a + b) / 2), |b - a|⟩ := by
  cases n with
  | zero => omega
  | succ n =>
    rw [bisect_loop_succ]
    split_ifs <;> rfl

lemma loop_root (f : ℚ → ℚ) (tol : ℚ) :
    ∀ (n i : ℕ) (a b : ℚ), (bisect_loop f tol n i a b).2 =
      ((bisect_loop f tol n i a b).1.getLast?).map Record.midpoint_c := by
  intro n
  induction n with
  | zero => intro i a b; rfl
  | succ n ih =>
    intro i a b
    rw [bisect_loop_succ]
    split_ifs with h1 h2
    · simp
    · have h3 := ih (i + 1) a ((a + b) / 2)
      rw [h3]
      cases hq : (bisect_loop f tol n (i + 1) a ((a + b) / 2)).1.getLast? <;>
        simp [List.getLast?_cons, hq]
    · have h3 := ih (i + 1) ((a + b) / 2) b
      rw [h3]
      cases hq : (bisect_loop f tol n (i + 1) ((a + b) / 2) b).1.getLast? <;>
        simp [List.getLast?_cons, hq]

lemma loop_dropLast (f : ℚ → ℚ) (tol : ℚ) :
    ∀ (n i : ℕ) (a b : ℚ), ∀ r ∈ (bisect_loop f tol n i a b).1.dropLast,
      tol ≤ r.error := by
  intro n
  induction n with
  | zero => intro i a b r hr; simp [bisect_loop_zero] at hr
  | succ n ih =>
    intro i a b r hr
    rw [bisect_loop_succ] at hr
    split_ifs at hr with h1 h2
    · simp at hr
    · rcases hq : (bisect_loop f tol n (i + 1) a ((a + b) / 2)).1 with _ | ⟨x, xs⟩
      · rw [hq] at hr; simp at hr
      · rw [hq, List.dropLast_cons₂, List.mem_cons] at hr
        rcases hr with hr | hr
        · subst hr; exact not_lt.mp h1
        · exact ih (i + 1) a ((a + b) / 2) r (by rw [hq]; exact hr)
    · rcases hq : (bisect_loop f tol n (i + 1) ((a + b) / 2) b).1 with _ | ⟨x, xs⟩
      · rw [hq] at hr; simp at hr
      · rw [hq, List.dropLast_cons₂, List.mem_cons] at hr
        rcases hr with hr | hr
        · subst hr; exact not_lt.mp h1
        · exact ih (i + 1) ((a + b) / 2) b r (by rw [hq]; exact hr)

lemma loop_len (f : ℚ → ℚ) (tol : ℚ) :
    ∀ (n i : ℕ) (a b : ℚ), (∀ r ∈ (bisect_loop f tol n i a b).1, tol ≤ r.error) →
      (bisect_loop f tol n i a b).1.length = n := by
  intro n
  induction n with
  | zero => intro i a b _; rfl
  | succ n ih =>
    intro i a b hall
    rw [bisect_loop_succ] at hall ⊢
    split_ifs at hall ⊢ with h1 h2
    · exact absurd (hall _ (List.mem_singleton_self _)) (not_le.mpr h1)
    · simp only [List.length_cons]
      rw [ih (i + 1) a ((a + b) / 2) fun r hr => hall r (List.mem_cons_of_mem _ hr)]
    · simp only [List.length_cons]
      rw [ih (i + 1) ((a + b) / 2) b fun r hr => hall r (List.mem_cons_of_mem _ hr)]

lemma loop_halving (f : ℚ → ℚ) (tol : ℚ) :
    ∀ (n i : ℕ) (a b : ℚ) (j : ℕ) (r s : Record),
      (bisect_loop f tol n i a b).1.get? j = some r →
      (bisect_loop f tol n i a b).1.get? (j + 1) = some s →
      s.error = r.error / 2 := by
  intro n
  induction n with
  | zero => intro i a b j r s hr _; simp [bisect_loop_zero] at hr
  | succ n ih =>
    intro i a b j r s hr hs
    rw [bisect_loop_succ] at hr hs
    split_ifs at hr hs with h1 h2
    · simp at hs
    · cases j with
      | zero =>
        simp only [List.get?_cons_zero, Option.some.injEq] at hr
        simp only [List.get?_cons_succ] at hs
        cases n with
        | zero => simp [bisect_loop_zero] at hs
        | succ n =>
          rw [loop_head0 f tol (n + 1) (i + 1) a ((a + b) / 2) (Nat.succ_pos n)] at hs
          have hc : (a + b) / 2 - a = (b - a) / 2 := by ring
          have habs : |(a + b) / 2 - a| = |b - a| / 2 := by
            rw [hc, abs_div]; norm_num
          have hs2 := Option.some.inj hs
          subst hs2
          subst hr
          show |(a + b) / 2 - a| = |b - a| / 2
          exact habs
      | succ j =>
        simp only [List.get?_cons_succ] at hr hs
        exact ih (i + 1) a ((a + b) / 2) j r s hr hs
    · cases j with
      | zero =>
        simp only [List.get?_cons_zero, Option.some.injEq] at hr
        simp only [List.get?_cons_succ] at hs
        cases n with
        | zero => simp [bisect_loop_zero] at hs
        | succ n =>
          rw [loop_head0 f tol (n + 1) (i + 1) ((a + b) / 2) b (Nat.succ_pos n)] at hs
          have hc : b - (a + b) / 2 = (b - a) / 2 := by ring
          have habs : |b - (a + b) / 2| = |b - a| / 2 := by
            rw [hc, abs_div]; norm_num
          have hs2 := Option.some.inj hs
          subst hs2
          subst hr
          show |b - (a + b) / 2| = |b - a| / 2
          exact habs
      | succ j =>
        simp only [List.get?_cons_succ] at hr hs
        exact ih (i + 1) ((a + b) / 2) b j r s hr hs

lemma ok_inv {f : ℚ → ℚ} {a b tol : ℚ} {m : ℕ} {recs : List Record} {root : ℚ}
    (h : bisection_method f a b tol m = SolveResult.ok recs root) :
    recs = (bisect_loop f tol m 0 a b).1 ∧
      (bisect_loop f tol m 0 a b).2 = some root := by
  unfold bisection_method at h
  split_ifs at h with h0
  rcases hL : bisect_loop f tol m 0 a b with ⟨rs, co⟩
  rw [hL] at h
  cases co with
  | none => exact SolveResult.noConfusion h
  | some c =>
    simp only [SolveResult.ok.injEq] at h
    exact ⟨h.1.symm, congrArg some h.2⟩

lemma ok_root_last {f : ℚ → ℚ} {a b tol : ℚ} {m : ℕ} {recs : List Record}
    {root : ℚ} (h : bisection_method f a b tol m = SolveResult.ok recs root) :
    ∀ lst, recs.getLast? = some lst → root = lst.midpoint_c := by
  obtain ⟨hrecs, hroot⟩ := ok_inv h
  intro lst hl
  rw [loop_root f tol m 0 a b, ← hrecs, hl] at hroot
  simpa using hroot.symm

/-- C1: whenever `f a * f b ≥ 0` (including an endpoint evaluating to exactly
zero), `bisection_method` returns the `BracketError` sentinel value — no
records, no root, and no exception. -/
theorem claim_C1_bracket_rejected (f : ℚ → ℚ) (a b tol : ℚ) (m : ℕ)
    (h : 0 ≤ f a * f b) :
    bisection_method f a b tol m = SolveResult.bracketError := by
  unfold bisection_method
  rw [if_pos h]

theorem claim_C1_witness :
    0 ≤ fdemo (1/3) * fdemo 1 ∧
      bisection_method fdemo (1/3) 1 (3/4) 100 = SolveResult.bracketError :=
  ⟨by with_unfolding_all decide,
   claim_C1_bracket_rejected fdemo (1/3) 1 (3/4) 100
     (by with_unfolding_all decide)⟩

/-- C2: on a successful run every record except possibly the last has
`error ≥ tolerance` (so the loop stops at the first iteration whose recorded
error is below tolerance and appends nothing afterwards), and the returned
root is the midpoint of the final record. -/
theorem claim_C2_stops_at_first_convergence (f : ℚ → ℚ) (a b tol : ℚ) (m : ℕ)
    (recs : List Record) (root : ℚ)
    (h : bisection_method f a b tol m = SolveResult.ok recs root) :
    (∀ r ∈ recs.dropLast, tol ≤ r.error) ∧
      (∀ lst, recs.getLast? = some lst → root = lst.midpoint_c) := by
  obtain ⟨hrecs, _⟩ := ok_inv h
  refine ⟨?_, ok_root_last h⟩
  rw [hrecs]
  exact loop_dropLast f tol m 0 a b

theorem claim_C2_witness :
    (∀ r ∈ demoRecs2.dropLast, (3/4 : ℚ) ≤ r.error) ∧
      (∀ lst, demoRecs2.getLast? = some lst → (1/4 : ℚ) = lst.midpoint_c) :=
  claim_C2_stops_at_first_convergence fdemo 0 1 (3/4) 100 demoRecs2 (1/4)
    (by with_unfolding_all decide)

/-- C3: on a successful run the j-th record (0-based position j) carries the
1-based iteration index j+1, its midpoint is the average of its recorded
endpoints, its `fa`, `fb`, `fc` fields are `f` evaluated at those
points, and its `error` is the pre-narrowing interval width; the first
record carries the initial endpoints. -/
theorem claim_C3_record_fields (f : ℚ → ℚ) (a b tol : ℚ) (m : ℕ)
    (recs : List Record) (root : ℚ)
    (h : bisection_method f a b tol m = SolveResult.ok recs root) :
    (∀ (j : ℕ) (r : Record), recs.get? j = some r →
        r.iteration = j + 1 ∧
        r.midpoint_c = (r.guess_a + r.guess_b) / 2 ∧
        r.fa = f r.guess_a ∧ r.fb = f r.guess_b ∧ r.fc = f r.midpoint_c ∧
        r.error = |r.guess_b - r.guess_a|) ∧
      (∀ hd, recs.get? 0 = some hd → hd.guess_a = a ∧ hd.guess_b = b) := by
  obtain ⟨hrecs, _⟩ := ok_inv h
  subst hrecs
  constructor
  · intro j r hr
    refine ⟨?_, loop_coherent f tol m 0 a b r (List.get?_mem hr)⟩
    have := loop_idx f tol m 0 a b j r hr
    omega
  · intro hd hhd
    cases m with
    | zero => rw [bisect_loop_zero] at hhd; exact Option.noConfusion hhd
    | succ m =>
      rw [loop_head0 f tol (m + 1) 0 a b (Nat.succ_pos m)] at hhd
      have h2 := Option.some.inj hhd
      subst h2
      exact ⟨rfl, rfl⟩

theorem claim_C3_witness :
    (∀ (j : ℕ) (r : Record), demoRecs2.get? j = some r →
        r.iteration = j + 1 ∧
        r.midpoint_c = (r.guess_a + r.guess_b) / 2 ∧
        r.fa = fdemo r.guess_a ∧ r.fb = fdemo r.guess_b ∧
        r.fc = fdemo r.midpoint_c ∧
        r.error = |r.guess_b - r.guess_a|) ∧
      (∀ hd, demoRecs2.get? 0 = some hd → hd.guess_a = 0 ∧ hd.guess_b = 1) :=
  claim_C3_record_fields fdemo 0 1 (3/4) 100 demoRecs2 (1/4)
    (by with_unfolding_all decide)

/-- C4: when a successful run never sees `error < tolerance`, exactly
`max_iterations` records are produced and the root is the midpoint of the
last (the `max_iterations`-th) record. -/
theorem claim_C4_budget_exhaustion (f : ℚ → ℚ) (a b tol : ℚ) (m : ℕ)
    (recs : List Record) (root : ℚ)
    (h : bisection_method f a b tol m = SolveResult.ok recs root)
    (hnc : ∀ r ∈ recs, tol ≤ r.error) :
    recs.length = m ∧ ∀ lst, recs.getLast? = some lst → root = lst.midpoint_c := by
  obtain ⟨hrecs, _⟩ := ok_inv h
  subst hrecs
  exact ⟨loop_len f tol m 0 a b hnc, ok_root_last h⟩

theorem claim_C4_witness :
    demoRecs5.length = 5 ∧
      (∀ lst, demoRecs5.getLast? = some lst → (11/32 : ℚ) = lst.midpoint_c) :=
  claim_C4_budget_exhaustion fdemo 0 1 0 5 demoRecs5 (11/32)
    (by with_unfolding_all decide) (by with_unfolding_all decide)

/-- C5: when the midpoint test product `f a * f c` is exactly zero (and the
iteration does not converge), the else branch runs: the recursive call keeps
`b` and moves `a` to the midpoint, i.e. the loop continues rather than
terminating on the exact zero. -/
theorem claim_C5_tiebreak_zero_product (f : ℚ → ℚ) (tol : ℚ) (n i : ℕ)
    (a b : ℚ) (h1 : ¬ |b - a| < tol) (h2 : f a * f ((a + b) / 2) = 0) :
    bisect_loop f tol (n + 1) i a b =
      (⟨i + 1, a, b, (a + b) / 2, f a, f b, f ((a + b) / 2), |b - a|⟩ ::
         (bisect_loop f tol n (i + 1) ((a + b) / 2) b).1,
       some ((bisect_loop f tol n (i + 1) ((a + b) / 2) b).2.getD
         ((a + b) / 2))) := by
  rw [bisect_loop_succ, if_neg h1, if_neg (by rw [h2]; exact lt_irrefl 0)]

theorem claim_C5_witness :
    bisect_loop (fun _ => (0 : ℚ)) (1/2) (0 + 1) 0 0 1 =
      (⟨0 + 1, 0, 1, (0 + 1) / 2, 0, 0, 0, |1 - 0|⟩ ::
         (bisect_loop (fun _ => (0 : ℚ)) (1/2) 0 (0 + 1) ((0 + 1) / 2) 1).1,
       some ((bisect_loop (fun _ => (0 : ℚ)) (1/2) 0 (0 + 1) ((0 + 1) / 2) 1).2.getD
         ((0 + 1) / 2))) :=
  claim_C5_tiebreak_zero_product (fun _ => (0 : ℚ)) (1/2) 0 0 0 1
    (by with_unfolding_all decide) (by with_unfolding_all decide)

/-- C6: on a successful run each recorded error is exactly half of the
previous record's error (exact rational arithmetic). -/
theorem claim_C6_error_halves (f : ℚ → ℚ) (a b tol : ℚ) (m : ℕ)
    (recs : List Record) (root : ℚ)
    (h : bisection_method f a b tol m = SolveResult.ok recs root)
    (j : ℕ) (r s : Record) (hr : recs.get? j = some r)
    (hs : recs.get? (j + 1) = some s) :
    s.error = r.error / 2 := by
  obtain ⟨hrecs, _⟩ := ok_inv h
  subst hrecs
  exact loop_halving f tol m 0 a b j r s hr hs

theorem claim_C6_witness :
    (⟨2, 0, 1/2, 1/4, -1/3, 1/6, -1/12, 1/2⟩ : Record).error =
      (⟨1, 0, 1, 1/2, -1/3, 2/3, 1/6, 1⟩ : Record).error / 2 :=
  claim_C6_error_halves fdemo 0 1 (3/4) 100 demoRecs2 (1/4)
    (by with_unfolding_all decide) 0
    ⟨1, 0, 1, 1/2, -1/3, 2/3, 1/6, 1⟩ ⟨2, 0, 1/2, 1/4, -1/3, 1/6, -1/12, 1/2⟩
    rfl rfl

/-- C7: on a successful run the sequence of recorded errors is
non-increasing between consecutive records. -/
theorem claim_C7_error_nonincreasing (f : ℚ → ℚ) (a b tol : ℚ) (m : ℕ)
    (recs : List Record) (root : ℚ)
    (h : bisection_method f a b tol m = SolveResult.ok recs root)
    (j : ℕ) (r s : Record) (hr : recs.get? j = some r)
    (hs : recs.get? (j + 1) = some s) :
    s.error ≤ r.error := by
  obtain ⟨hrecs, _⟩ := ok_inv h
  subst hrecs
  have hhalf := loop_halving f tol m 0 a b j r s hr hs
  have hco := loop_coherent f tol m 0 a b r (List.get?_mem hr)
  have hnn : 0 ≤ r.error := by rw [hco.2.2.2.2]; exact abs_nonneg _
  rw [hhalf]
  linarith

theorem claim_C7_witness :
    (⟨2, 0, 1/2, 1/4, -1/3, 1/6, -1/12, 1/2⟩ : Record).error ≤
      (⟨1, 0, 1, 1/2, -1/3, 2/3, 1/6, 1⟩ : Record).error :=
  claim_C7_error_nonincreasing fdemo 0 1 (3/4) 100 demoRecs2 (1/4)
    (by with_unfolding_all decide) 0
    ⟨1, 0, 1, 1/2, -1/3, 2/3, 1/6, 1⟩ ⟨2, 0, 1/2, 1/4, -1/3, 1/6, -1/12, 1/2⟩
    rfl rfl

/-- C8: a strictly sign-changing bracket together with a positive iteration
budget always yields a normal return with a non-empty record list and a
root. -/
theorem claim_C8_valid_bracket_ok (f : ℚ → ℚ) (a b tol : ℚ) (m : ℕ)
    (h1 : f a * f b < 0) (h2 : 0 < m) :
    ∃ recs root,
      bisection_method f a b tol m = SolveResult.ok recs root ∧ recs ≠ [] := by
  unfold bisection_method
  rw [if_neg (not_le.mpr h1)]
  cases m with
  | zero => omega
  | succ n =>
    rw [bisect_loop_succ]
    split_ifs with hc hs
    · exact ⟨_, _, rfl, by simp⟩
    · exact ⟨_, _, rfl, by simp⟩
    · exact ⟨_, _, rfl, by simp⟩

theorem claim_C8_witness :
    fdemo 0 * fdemo 1 < 0 ∧ 0 < 100 ∧
      ∃ recs root,
        bisection_method fdemo 0 1 (3/4) 100 = SolveResult.ok recs root ∧
          recs ≠ [] :=
  ⟨by with_unfolding_all decide, by decide,
   claim_C8_valid_bracket_ok fdemo 0 1 (3/4) 100
     (by with_unfolding_all decide) (by decide)⟩

/-- C9: the solver is deterministic and stateless: two calls with
pointwise-equal target functions and equal scalar arguments return the same
result. -/
theorem claim_C9_deterministic (f g : ℚ → ℚ) (a₁ a₂ b₁ b₂ t₁ t₂ : ℚ)
    (m₁ m₂ : ℕ) (hf : ∀ x, f x = g x) (ha : a₁ = a₂) (hb : b₁ = b₂)
    (ht : t₁ = t₂) (hm : m₁ = m₂) :
    bisection_method f a₁ b₁ t₁ m₁ = bisection_method g a₂ b₂ t₂ m₂ := by
  subst ha
  subst hb
  subst ht
  subst hm
  rw [funext hf]

theorem claim_C9_witness :
    bisection_method fdemo 0 1 (3/4) 100 = bisection_method fdemo 0 1 (3/4) 100 :=
  claim_C9_deterministic fdemo fdemo 0 0 1 1 (3/4) (3/4) 100 100
    (fun _ => rfl) rfl rfl rfl rfl

/-- C10: with a valid bracket and a zero iteration budget the loop body never
runs, so the final `return df, c` reads the never-assigned `c`: the call ends
in `UnboundLocalError` instead of returning an empty record list. -/
theorem claim_C10_zero_budget_unbound (f : ℚ → ℚ) (a b tol : ℚ)
    (h : f a * f b < 0) :
    bisection_method f a b tol 0 = SolveResult.unboundLocal := by
  unfold bisection_method
  rw [if_neg (not_le.mpr h)]
  rfl

theorem claim_C10_witness :
    fdemo 0 * fdemo 1 < 0 ∧
      bisection_method fdemo 0 1 (3/4) 0 = SolveResult.unboundLocal :=
  ⟨by with_unfolding_all decide,
   claim_C10_zero_budget_unbound fdemo 0 1 (3/4)
     (by with_unfolding_all decide)⟩
